import Mathlib

/-!
Shallow embedding of `src/scripts/bundle.js`, the build-orchestration script of
this repository, together with proofs about its components.

The script is sequential glue over the filesystem and subprocess spawning.  The
embedding models:

* the settle-once semantics of the promises the script creates by hand
  (`Settle`, `trySettle`, `closeSettle` for the `close` listeners of
  `buildScript` and `copyDirRecursive`);
* `hasPackage` over an abstract package manifest (`PackageJson`);
* the `projectDir` upward-search `while` loop (`locateProject`);
* `walkDirSync` over an inductive filesystem tree (`FSNode` / `FSList`),
  keeping the JavaScript string-vs-array result distinction (`WalkResult`);
* `replaceBundleExtensionsInHtml`, including the exact match semantics of the
  regex `/([^"'])+\.bundle([^"'])+/g` and of `String.prototype.replace` with a
  string pattern (first occurrence);
* the build-directory creation promise (`ensureBuildDir`) and the top-level
  orchestrator promise chain (`bundleMain`).

File paths are modelled as lists of path components (`List String`); file
contents as `List Char`.  Process exit behaviour is modelled by `ProcOutcome`:
`notFoundExit1` is the `process.exit(1)` after printing
"Could not find a React VR project directory", `errExit1 e` is the `.catch`
branch that prints the failure message with the rejection value `e` and calls
`process.exit(1)`, and `success buildDir` is the final `.then` that prints the
success message naming `path.resolve(...buildDir)` (the process then exits 0).
-/

/-- A JavaScript value a promise in this script can be rejected with: either a
subprocess exit code (`reject(code)` in `buildScript` / `copyDirRecursive`,
`reject(1)` in the mkdir promise) or a `TypeError` thrown while a `.then`
callback runs (e.g. `path.resolve(undefined)` when no client file was found). -/
inductive JsErr where
  | exitCode (n : Int)
  | typeError
deriving DecidableEq

/-- State of a hand-built promise: pending, resolved, or rejected with a value.
A promise settles at most once; later `resolve`/`reject` calls are ignored. -/
inductive Settle where
  | pending
  | resolved
  | rejected (e : JsErr)
deriving DecidableEq

/-- Settling a promise only takes effect while it is still pending. -/
def trySettle : Settle → Settle → Settle
  | Settle.pending, new => new
  | s, _ => s

/-- The `close` listener shared by `buildScript` and `copyDirRecursive`:
`if (code !== 0) { reject(code); } resolve();` starting from a pending promise.
Note the `resolve()` is not in an `else`; it runs unconditionally after the
conditional `reject(code)`, and the settle-once rule makes the rejection win. -/
def closeSettle (code : Int) : Settle :=
  trySettle
    (if code ≠ 0 then trySettle Settle.pending (Settle.rejected (JsErr.exitCode code))
     else Settle.pending)
    Settle.resolved

/-- First rejection value in a list of settled promises, scanning in array
order.  (In the running script the aggregation observes whichever rejection
happens first in time; the embedding fixes array order, which is enough for
the all-or-nothing properties proved here.) -/
def firstRejection : List Settle → Option JsErr
  | [] => none
  | Settle.rejected e :: _ => some e
  | _ :: rest => firstRejection rest

/-- Model of `Promise.all`: rejected as soon as any member is rejected, resolved when
all members are resolved, otherwise still pending. -/
def promiseAll (l : List Settle) : Settle :=
  match firstRejection l with
  | some e => Settle.rejected e
  | none => if l.all (fun s => s = Settle.resolved) then Settle.resolved else Settle.pending

/-- A parsed `package.json`: the dependency names declared under the
`dependencies` and `devDependencies` keys (a name is listed when its value is
truthy).  `none` for a key models the key being absent from the manifest. -/
structure PackageJson where
  dependencies : Option (List String)
  devDependencies : Option (List String)
deriving DecidableEq

/-- Model of `hasPackage(dir)` from the source, over the manifest found at `dir`
(`none` = `fs.statSync(packagePath)` threw, i.e. no readable `package.json`):
it returns `true` exactly when `pkg && pkg.dependencies &&
pkg.dependencies['react-vr']` is truthy.  `devDependencies` is never consulted. -/
def hasPackage (manifest : Option PackageJson) : Bool :=
  match manifest with
  | none => false
  | some pkg =>
    match pkg.dependencies with
    | none => false
    | some deps => deps.contains "react-vr"

/-- Model of `path.join(dir, '..')` on a directory given as a component list: drop the
last component; at the filesystem root it is the root again (`/.. = /`). -/
def parentDir (d : List String) : List String := d.dropLast

/-- Worker for the `while (!hasPackage(projectDir))` search loop.  The fuel is
always called with the length of the component list, so the recursion tracks
exactly the real loop: check `hasPackage` first, then stop with `none`
(`console.log` + `process.exit(1)` in the source) when the parent equals the
current directory, else move to the parent. -/
def locateGo (hasPkg : List String → Bool) : Nat → List String → Option (List String)
  | 0, d => if hasPkg d then some d else none
  | n + 1, d =>
    if hasPkg d then some d
    else if parentDir d = d then none
    else locateGo hasPkg n (parentDir d)

/-- The `projectDir` search loop of the source (lines 126-137), starting at the
current working directory `d`.  `some r` is the loop finishing with
`projectDir = r`; `none` is the not-found diagnostic plus `process.exit(1)`. -/
def locateProject (hasPkg : List String → Bool) (d : List String) : Option (List String) :=
  locateGo hasPkg d.length d

/-- Worker for `ancestors`; fuel as in `locateGo`. -/
def ancestorsGo : Nat → List String → List (List String)
  | 0, d => [d]
  | n + 1, d => d :: ancestorsGo n (parentDir d)

/-- The chain of directories the search loop can visit: the start directory,
its parent, and so on up to the filesystem root. -/
def ancestors (d : List String) : List (List String) := ancestorsGo d.length d

/-- Modelled from the spec: "ProjectLocator returns the nearest ancestor
(including the start directory) whose manifest declares the required
dependency" — the first directory in the ancestor chain satisfying the
predicate.  This is the specification-side definition the implementation is
compared with. -/
def nearestQualifyingAncestor (hasPkg : List String → Bool) (d : List String) :
    Option (List String) :=
  (ancestors d).find? hasPkg

/- A node of a (finite, acyclic) directory tree, as `walkDirSync` sees it:
a plain file or a directory with an ordered `fs.readdirSync` child list.
`FSNode`/`FSList` are a mutual pair so that the recursion of the walk is
structural. -/
mutual
inductive FSNode where
  | file (nm : String)
  | dir (nm : String) (children : FSList)
inductive FSList where
  | nil
  | cons (hd : FSNode) (tl : FSList)
end

/-- The entry name of a node, as `fs.readdirSync` would report it. -/
def FSNode.name : FSNode → String
  | FSNode.file nm => nm
  | FSNode.dir nm _ => nm

/-- The JavaScript return value of `walkDirSync`: a single path string when the
argument is not a directory (`return dir`), otherwise an array of path
strings.  Paths are component lists. -/
inductive WalkResult where
  | str (p : List String)
  | arr (ps : List (List String))
deriving DecidableEq

/-- The path list a `WalkResult` denotes once the caller spreads it. -/
def resPaths : WalkResult → List (List String)
  | WalkResult.str p => [p]
  | WalkResult.arr ps => ps

/-- The `.reduce((acc, f) => Array.isArray(f) ? [...acc, ...f] : [...acc, f], [])`
step of `walkDirSync`: flatten child results, keeping single file paths. -/
def flattenResults (l : List WalkResult) : List (List String) :=
  l.foldl
    (fun acc f =>
      match f with
      | WalkResult.arr ps => acc ++ ps
      | WalkResult.str p => acc ++ [p])
    []

/- Model of `walkDirSync(dir, options)` from the source (lines 64-71) over the tree
at `dir`, where `cur` is the path of `dir` itself.  A non-directory argument is
returned as-is (`if (!fs.statSync(dir).isDirectory()) return dir;`); for a
directory, the entries are filtered by name against `exclude`
(`options.exclude.indexOf(f) === -1`), each kept entry is walked recursively at
`path.join(dir, f)`, and the results are flattened.  `walkFiltered` fuses the
source's `.filter(...).map(...)` into one structural pass over the child list;
`walkFiltered_eq_filter_map` below proves the fusion equal to
filter-then-map. -/
mutual
def walkDirSync (exclude : List String) (cur : List String) : FSNode → WalkResult
  | FSNode.file _ => WalkResult.str cur
  | FSNode.dir _ children =>
    WalkResult.arr (flattenResults (walkFiltered exclude cur children))

def walkFiltered (exclude : List String) (cur : List String) : FSList → List WalkResult
  | FSList.nil => []
  | FSList.cons c cs =>
    if exclude.contains c.name then walkFiltered exclude cur cs
    else walkDirSync exclude (cur ++ [c.name]) c :: walkFiltered exclude cur cs
end

/-- Plain-list view of an `FSList`. -/
def FSList.toList : FSList → List FSNode
  | FSList.nil => []
  | FSList.cons c cs => c :: cs.toList

/-- A character the regex class excludes: a double or single quote.
(The single quote is written via its code point, 39.) -/
def isQuote (c : Char) : Bool := c == '"' || c == Char.ofNat 39

/-- Worker splitting a character list into its maximal runs of non-quote
characters, in order; `acc` holds the current run reversed. -/
def splitRunsGo (acc : List Char) : List Char → List (List Char)
  | [] => if acc.isEmpty then [] else [acc.reverse]
  | c :: rest =>
    if isQuote c then
      if acc.isEmpty then splitRunsGo [] rest
      else acc.reverse :: splitRunsGo [] rest
    else splitRunsGo (c :: acc) rest

/-- The maximal quote-free runs of a document, in document order. -/
def maximalRuns (content : List Char) : List (List Char) := splitRunsGo [] content

/-- Whether a quote-free run contains the literal `.bundle` at some position
`j` with at least one character before it and at least one after it. -/
def runHasBundle (run : List Char) : Bool :=
  (List.range run.length).any fun j =>
    decide (1 ≤ j) && decide (j + 7 < run.length) &&
      ((run.drop j).take 7 == ".bundle".data)

/- Semantics of `fileData.match(bundleRegex)` for
`const bundleRegex = /([^"'])+\.bundle([^"'])+/g;` — the match list, or `none`
for the `null` that `String.prototype.match` returns when there is no match.

Why the matches are exactly the maximal quote-free runs that satisfy
`runHasBundle`: every character of a match (both `([^"'])+` groups and the
literal `.bundle`) is a non-quote character, so each match lies inside one
maximal quote-free run and cannot cross a quote.  Within a run of length `L`
starting at scan position `s = 0`, the engine needs some `j ≥ 1` with
`.bundle` at `j` and `j + 7 < L` (at least one trailing character); both
groups being greedy, the first group backtracks to the last such `j` and the
second group then extends to the end of the run, so the matched substring is
the entire run.  If no such `j` exists, no later start position inside the run
can succeed either (it only shrinks the candidate set for `j`), so the run
contributes no match.  After a match `lastIndex` sits at the end of the run,
and scanning continues with the following runs. -/
def bundleRegexMatch (content : List Char) : Option (List (List Char)) :=
  let bundlePaths := (maximalRuns content).filter runHasBundle
  if bundlePaths.isEmpty then none else some bundlePaths

/-- Model of `path.basename(p)` (posix): strip trailing separators, then keep what
follows the last separator. -/
def jsBasename (p : List Char) : List Char :=
  let stripped := (p.reverse.dropWhile (fun c => c == '/')).reverse
  (stripped.reverse.takeWhile (fun c => c != '/')).reverse

/-- Model of `path.sep + path.basename(p).split('.')[0] + '.bundle.js'` — the
normalized replacement path derived from a matched bundle reference
(`path.sep` modelled as the posix separator). -/
def updatedPath (p : List Char) : List Char :=
  '/' :: ((jsBasename p).takeWhile (fun c => c != '.') ++ ".bundle.js".data)

/-- Model of `data.replace(pat, repl)` with a string pattern: replace the first
occurrence of `pat` in `data`, or return `data` unchanged if `pat` does not
occur.  (The replacement strings produced by `updatedPath` contain no `$`, so
JavaScript's special replacement patterns never trigger.) -/
def replaceFirst : List Char → List Char → List Char → List Char
  | [], pat, repl => if pat.isPrefixOf ([] : List Char) then repl else []
  | c :: rest, pat, repl =>
    if pat.isPrefixOf (c :: rest) then repl ++ (c :: rest).drop pat.length
    else c :: replaceFirst rest pat repl

/-- Model of `replaceBundleExtensionsInHtml(file, buildDir)` from the source (lines
95-124), as a function of the file contents (the `fs.readFile` data, assumed
read successfully).  `Except.ok out` means the promise resolves after writing
`out` to `path.resolve(...buildDir, path.basename(file))`.  When the document
has no match, `bundlePaths` is `null` and `(!bundlePaths.length)` throws a
`TypeError` inside the `readFile` callback — nothing is written and the
promise never settles; this is `Except.error JsErr.typeError`.  When matches
exist the zero-length guard is false (a successful match list is never empty),
each match `p` is replaced in `fileData` by `updatedPath p` via the
first-occurrence `String.prototype.replace`, and the result is written. -/
def replaceBundleExtensionsInHtml (data : List Char) : Except JsErr (List Char) :=
  match bundleRegexMatch data with
  | none => Except.error JsErr.typeError
  | some bundlePaths =>
    Except.ok (bundlePaths.foldl (fun fileData p => replaceFirst fileData p (updatedPath p)) data)

/-- The settle state of the promise `replaceBundleExtensionsInHtml` returns,
as the orchestrator's `Promise.all` sees it.  (On the `TypeError` path the
real promise stays pending and the uncaught throw kills the process; the
orchestrator-level theorems below only exercise documents that do match, so
the rejected-value choice here is never observed by them.) -/
def htmlSettle (data : List Char) : Settle :=
  match replaceBundleExtensionsInHtml data with
  | Except.ok _ => Settle.resolved
  | Except.error e => Settle.rejected e

/-- The path string a component list denotes (posix join). -/
def joinedPath : List String → List Char
  | [] => []
  | [x] => x.data
  | x :: y :: rest => x.data ++ '/' :: joinedPath (y :: rest)

/-- The last path component (`path.basename(file)` for the walked file paths,
whose last component is always a plain entry name). -/
def lastComponent (f : List String) : String := (f.getLast?).getD ""

/-- Model of `path.extname` on a basename: the suffix from the last `.`, empty when
there is no `.` or when the only `.` is the leading character. -/
def extnameChars (b : List Char) : List Char :=
  let afterDotRev := b.reverse.takeWhile (fun c => c != '.')
  if afterDotRev.length = b.length then []
  else if afterDotRev.length + 1 = b.length then []
  else '.' :: afterDotRev.reverse

/-- Model of `vrJsRegex.test(file)` for `const vrJsRegex = /\.vr\.js$/;` — the path
string ends with `.vr.js`. -/
def isVrJs (f : List String) : Bool := ".vr.js".data.isSuffixOf (joinedPath f)

/-- Model of `path.extname(file) === '.html'` (the extension only depends on the last
component, since `path.extname` looks behind the last separator). -/
def isHtml (f : List String) : Bool := extnameChars (lastComponent f).data == ".html".data

/-- Whether `sub` occurs inside `l` (`l.indexOf(sub) !== -1` on strings). -/
def containsSub (sub : List Char) : List Char → Bool
  | [] => sub.isPrefixOf ([] : List Char)
  | c :: rest => sub.isPrefixOf (c :: rest) || containsSub sub rest

/-- Model of `f.indexOf('client.js') !== -1` — the full path string contains the
substring `client.js` anywhere. -/
def hasClientJs (f : List String) : Bool := containsSub "client.js".data (joinedPath f)

/-- Model of `projectDirContents.find(f => f.indexOf('client.js') !== -1)` — the first
walked path containing `client.js`. -/
def clientJsFind (contents : List (List String)) : Option (List String) :=
  contents.find? hasClientJs

/-- Model of `path.basename(file, ext)`: the last component, with `ext` stripped when it
is a proper suffix of it (Node keeps the name unchanged when it equals `ext`). -/
def basenameSuffix (f : List String) (ext : String) : String :=
  let b := lastComponent f
  if b ≠ ext ∧ ext.data.isSuffixOf b.data then
    String.mk (b.data.take (b.data.length - ext.data.length))
  else b

/-- Output bundle name for a component-entry file:
`path.basename(file, '.vr.js') + '.bundle.js'`. -/
def vrOutputName (f : List String) : String := basenameSuffix f ".vr.js" ++ ".bundle.js"

/-- Result of the `fs.statSync(path.join(...buildDir))` probe in the
build-directory promise: the path exists and is a directory, exists but is not
a directory, or `statSync` threw (no such entry). -/
inductive StatOutcome where
  | statDir
  | statNonDir
  | statThrew
deriving DecidableEq

/-- The build-directory creation promise (source lines 139-152): if the stat
probe reports an existing directory, resolve immediately; otherwise run
`fs.mkdir` and reject with `1` when it reports an error (`mkdirErr`), after
printing the failure diagnostic. -/
def ensureBuildDir (stat : StatOutcome) (mkdirErr : Bool) : Except Int Unit :=
  match stat with
  | StatOutcome.statDir => Except.ok ()
  | _ => if mkdirErr then Except.error 1 else Except.ok ()

/-- The exclusion list passed to `walkDirSync` by the orchestrator. -/
def defaultExclude : List String :=
  ["node_modules", "build", "__tests__", "static_assets", ".babelrc", ".flowconfig",
   ".git", ".gitignore", ".watchmanconfig", "yarn.lock", "package.json", "rn-cli.config.js"]

/-- Source constant `buildDirName = 'build'`. -/
def buildDirName : String := "build"

/-- Source constant `staticAssetsDir = 'static_assets'`. -/
def staticAssetsDirName : String := "static_assets"

/-- The ambient world the orchestrator runs in: the build-directory stat/mkdir
behaviour, the tree under the located project directory, the exit code the
bundler subprocess produces for each entry path, the exit code of the
recursive copy, and the contents of each HTML file. -/
structure BuildWorld where
  statBuild : StatOutcome
  mkdirErr : Bool
  tree : FSNode
  bundleExit : List String → Int
  copyExit : Int
  htmlData : List String → List Char

/-- Observable outcome of a whole run, see the module comment:
`notFoundExit1` and `errExit1 e` both end in `process.exit(1)` after printing
a diagnostic; `success buildDir` prints the success message and the process
exits 0. -/
inductive ProcOutcome where
  | notFoundExit1
  | errExit1 (e : JsErr)
  | success (buildDir : List String)
deriving DecidableEq

/-- The whole script (source lines 126-211) as a function of the starting
directory `cwd` (`process.cwd()`), the package manifest found at each
directory (`pkgAt`), and the ambient world.  Mirrors the source order:
`buildDir` is fixed from the original `cwd` before the search loop reassigns
`projectDir`; then the search loop; then the build-directory promise; then the
walk, the client-file lookup, and the fan-out of bundler invocations, HTML
rewrites, the client bundle, and the asset copy joined by `Promise.all`.  When
no walked path contains `client.js`, `path.resolve(clientJsFile)` with
`clientJsFile === undefined` throws a `TypeError` inside the `.then` callback,
so the chain rejects and the `.catch` exits 1 (the already-launched sibling
promises are not modelled: only the final outcome is). -/
def bundleMain (cwd : List String) (pkgAt : List String → Option PackageJson)
    (w : BuildWorld) : ProcOutcome :=
  let buildDir := cwd ++ [buildDirName]
  match locateProject (fun d => hasPackage (pkgAt d)) cwd with
  | none => ProcOutcome.notFoundExit1
  | some projectDir =>
    match ensureBuildDir w.statBuild w.mkdirErr with
    | Except.error n => ProcOutcome.errExit1 (JsErr.exitCode n)
    | Except.ok _ =>
      let projectDirContents := resPaths (walkDirSync defaultExclude projectDir w.tree)
      match clientJsFind projectDirContents with
      | none => ProcOutcome.errExit1 JsErr.typeError
      | some clientJsFile =>
        let settles :=
          (projectDirContents.filter isVrJs).map (fun f => closeSettle (w.bundleExit f))
          ++ (projectDirContents.filter isHtml).map (fun f => htmlSettle (w.htmlData f))
          ++ [closeSettle (w.bundleExit clientJsFile)]
          ++ [closeSettle w.copyExit]
        match promiseAll settles with
        | Settle.rejected e => ProcOutcome.errExit1 e
        | _ => ProcOutcome.success buildDir

/-- The output paths a successful run writes, in fan-out order: one
`<base>.bundle.js` per component-entry file (the `--bundle-output` argument),
the rewritten HTML files (written to `path.resolve(...buildDir,
path.basename(file))`), the fixed `client.bundle.js`, and the copied
`static_assets` directory. -/
def plannedOutputs (buildDir : List String) (contents : List (List String)) :
    List (List String) :=
  (contents.filter isVrJs).map (fun f => buildDir ++ [vrOutputName f])
  ++ (contents.filter isHtml).map (fun f => buildDir ++ [lastComponent f])
  ++ [buildDir ++ ["client.bundle.js"]]
  ++ [buildDir ++ [staticAssetsDirName]]

/-- The project tree of the orchestrator run scenario: two component-entry
files `A.vr.js` and `B.vr.js`, one `client.js`, one `index.html`, and a
`static_assets/` directory. -/
def scenarioTree : FSNode :=
  FSNode.dir "proj"
    (FSList.cons (FSNode.file "A.vr.js")
      (FSList.cons (FSNode.file "B.vr.js")
        (FSList.cons (FSNode.file "client.js")
          (FSList.cons (FSNode.file "index.html")
            (FSList.cons (FSNode.dir "static_assets" (FSList.cons (FSNode.file "logo.png") FSList.nil))
              FSList.nil)))))

/-- Manifests for the scenario: the project root `proj` declares `react-vr`
under `dependencies`; no other directory has a readable `package.json`. -/
def scenarioPkgAt : List String → Option PackageJson := fun d =>
  if d = ["proj"] then some (PackageJson.mk (some ["react-vr"]) none) else none

/-- Contents of `index.html` in the scenario: it holds one bundle reference. -/
def scenarioHtml : List String → List Char :=
  fun _ => "<script src=\"index.bundle.js\"></script>".data

/-- The scenario world, parametrised by the bundler exit codes: no `build/`
directory yet, `mkdir` succeeds, and the copy exits 0. -/
def scenarioWorld (bundleExit : List String → Int) : BuildWorld :=
  BuildWorld.mk StatOutcome.statThrew false scenarioTree bundleExit 0 scenarioHtml

/-- A small tree used to exercise the exclusion property of `walkDirSync`:
one plain file next to a `node_modules` directory with content. -/
def exTreeC4 : FSNode :=
  FSNode.dir "root"
    (FSList.cons (FSNode.file "a.txt")
      (FSList.cons (FSNode.dir "node_modules" (FSList.cons (FSNode.file "dep.js") FSList.nil))
        FSList.nil))

/-- A world whose project tree holds no path containing `client.js`. -/
def noClientWorld : BuildWorld :=
  BuildWorld.mk StatOutcome.statThrew false
    (FSNode.dir "proj"
      (FSList.cons (FSNode.file "A.vr.js") (FSList.cons (FSNode.file "index.html") FSList.nil)))
    (fun _ => 0) 0 scenarioHtml

/-- Manifests where the start directory declares `react-vr` only under
`devDependencies` and its parent declares it under `dependencies`. -/
def pkgAtDevC8 : List String → Option PackageJson := fun d =>
  if d = ["home"] then some (PackageJson.mk (some ["react-vr"]) none)
  else some (PackageJson.mk none (some ["react-vr"]))

lemma dropLast_eq_self_iff (d : List String) : d.dropLast = d ↔ d = [] := by
  constructor
  · intro h
    by_contra hne
    have hlen := congrArg List.length h
    rw [List.length_dropLast] at hlen
    have hz : d.length ≠ 0 := by simpa [List.length_eq_zero] using hne
    omega
  · intro h
    subst h
    rfl

lemma find?_ancestorsGo_nil (hasPkg : List String → Bool) (h : hasPkg [] = false) :
    ∀ n, (ancestorsGo n ([] : List String)).find? hasPkg = none := by
  intro n
  induction n with
  | zero =>
    show List.find? hasPkg [[]] = none
    rw [List.find?_cons_of_neg _ (by simp [h]), List.find?_nil]
  | succ n ih => simpa [ancestorsGo, parentDir, List.find?_cons_of_neg, h] using ih

lemma locateGo_eq_findAncestors (hasPkg : List String → Bool) :
    ∀ (n : Nat) (d : List String), locateGo hasPkg n d = (ancestorsGo n d).find? hasPkg := by
  intro n
  induction n with
  | zero =>
    intro d
    by_cases h : hasPkg d <;> simp [locateGo, ancestorsGo, List.find?, h]
  | succ n ih =>
    intro d
    by_cases h : hasPkg d
    · simp [locateGo, ancestorsGo, h, List.find?_cons_of_pos]
    · rw [show locateGo hasPkg (n + 1) d
          = (if parentDir d = d then none else locateGo hasPkg n (parentDir d)) by
        simp [locateGo, h]]
      rw [show (ancestorsGo (n + 1) d).find? hasPkg
          = (ancestorsGo n (parentDir d)).find? hasPkg by
        simp [ancestorsGo, List.find?_cons_of_neg, h]]
      by_cases h2 : parentDir d = d
      · have hd : d = [] := (dropLast_eq_self_iff d).mp h2
        subst hd
        rw [if_pos (show parentDir ([] : List String) = [] from rfl)]
        exact (find?_ancestorsGo_nil hasPkg (by simpa using h) n).symm
      · rw [if_neg h2]
        exact ih (parentDir d)

lemma ancestorsGo_prefix : ∀ (n : Nat) (d a : List String), a ∈ ancestorsGo n d → a <+: d := by
  intro n
  induction n with
  | zero =>
    intro d a ha
    simp [ancestorsGo] at ha
    subst ha
    exact List.prefix_refl a
  | succ n ih =>
    intro d a ha
    simp only [ancestorsGo, List.mem_cons] at ha
    rcases ha with h | h
    · subst h; exact List.prefix_refl a
    · exact (ih (parentDir d) a h).trans ( List.dropLast_prefix d)

lemma foldl_flatten_aux :
    ∀ (l : List WalkResult) (acc : List (List String)),
      l.foldl
        (fun acc f =>
          match f with
          | WalkResult.arr ps => acc ++ ps
          | WalkResult.str p => acc ++ [p]) acc
        = acc ++ l.flatMap resPaths := by
  intro l
  induction l with
  | nil => intro acc; simp
  | cons r rs ih => intro acc; cases r <;> simp [ih, resPaths]

lemma flattenResults_eq (l : List WalkResult) : flattenResults l = l.flatMap resPaths := by
  rw [flattenResults, foldl_flatten_aux]
  simp

mutual
theorem walkDirSync_rel (exclude cur : List String) (t : FSNode) :
    ∀ p ∈ resPaths (walkDirSync exclude cur t),
      ∃ rel, p = cur ++ rel ∧ ∀ s ∈ rel, exclude.contains s = false := by
  cases t with
  | file nm =>
    intro p hp
    have hpc : p = cur := by simpa [walkDirSync, resPaths] using hp
    exact ⟨[], by simp [hpc], by simp⟩
  | dir nm children =>
    intro p hp
    exact walkFiltered_rel exclude cur children p (by simpa [walkDirSync, resPaths] using hp)

theorem walkFiltered_rel (exclude cur : List String) (l : FSList) :
    ∀ p ∈ flattenResults (walkFiltered exclude cur l),
      ∃ rel, p = cur ++ rel ∧ ∀ s ∈ rel, exclude.contains s = false := by
  cases l with
  | nil =>
    intro p hp
    simp [walkFiltered, flattenResults] at hp
  | cons c cs =>
    intro p hp
    by_cases hx : exclude.contains c.name
    · have hxm : c.name ∈ exclude := by simpa using hx
      rw [show walkFiltered exclude cur (FSList.cons c cs) = walkFiltered exclude cur cs by
        simp [walkFiltered, hxm]] at hp
      exact walkFiltered_rel exclude cur cs p hp
    · have hxm : c.name ∉ exclude := by simpa using hx
      rw [show walkFiltered exclude cur (FSList.cons c cs)
          = walkDirSync exclude (cur ++ [c.name]) c :: walkFiltered exclude cur cs by
        simp [walkFiltered, hxm]] at hp
      rw [flattenResults_eq, List.flatMap_cons] at hp
      rcases List.mem_append.mp hp with h | h
      · obtain ⟨rel', hrel', hall⟩ := walkDirSync_rel exclude (cur ++ [c.name]) c p h
        refine ⟨c.name :: rel', by simpa [List.append_assoc] using hrel', ?_⟩
        intro s hs
        rcases List.mem_cons.mp hs with hE | hE
        · subst hE
          exact Bool.eq_false_iff.mpr hx
        · exact hall s hE
      · exact walkFiltered_rel exclude cur cs p (by rw [flattenResults_eq]; exact h)
end

lemma find?_some_split {α : Type} (p : α → Bool) :
    ∀ (l : List α) (a : α), l.find? p = some a →
      p a = true ∧ ∃ pre post, l = pre ++ a :: post ∧ ∀ g ∈ pre, p g = false := by
  intro l
  induction l with
  | nil => intro a h; simp [List.find?_nil] at h
  | cons x xs ih =>
    intro a h
    by_cases hx : p x
    · rw [List.find?_cons_of_pos _ hx] at h
      obtain rfl : x = a := Option.some.inj h
      exact ⟨hx, [], xs, rfl, by simp⟩
    · rw [List.find?_cons_of_neg _ hx] at h
      obtain ⟨hpa, pre, post, hsplit, hall⟩ := ih a h
      refine ⟨hpa, x :: pre, post, by simp [hsplit], ?_⟩
      intro g hg
      rcases List.mem_cons.mp hg with hE | hE
      · subst hE
        exact Bool.eq_false_iff.mpr hx
      · exact hall g hE

/-- C1: in a project root with component entries `A.vr.js` and `B.vr.js`, a
`client.js`, an `index.html` holding a bundle reference, and a
`static_assets/` directory, a run with all subprocesses exiting 0 ends in the
success outcome (success message naming the resolved build directory, exit 0)
and the fan-out writes exactly `build/A.bundle.js`, `build/B.bundle.js`, the
rewritten `build/index.html`, `build/client.bundle.js`, and the copied
`build/static_assets`; when one bundler invocation instead exits 2, the run
ends in the failure outcome carrying exit code 2 and terminates the process
with exit status 1. -/
theorem orchestrator_scenario :
    bundleMain ["proj"] scenarioPkgAt (scenarioWorld (fun _ => 0))
        = ProcOutcome.success ["proj", "build"]
    ∧ plannedOutputs ["proj", "build"]
        (resPaths (walkDirSync defaultExclude ["proj"] scenarioTree))
        = [["proj", "build", "A.bundle.js"], ["proj", "build", "B.bundle.js"],
           ["proj", "build", "index.html"], ["proj", "build", "client.bundle.js"],
           ["proj", "build", "static_assets"]]
    ∧ bundleMain ["proj"] scenarioPkgAt
        (scenarioWorld (fun f => if f = ["proj", "B.vr.js"] then 2 else 0))
        = ProcOutcome.errExit1 (JsErr.exitCode 2) :=
  ⟨by decide, by decide, by decide⟩

/-- C2: on an HTML document with no bundle reference the rewriter does not
write the document unchanged — `String.prototype.match` returns `null`, so
`bundlePaths.length` throws a `TypeError` and nothing is written.  This
contradicts the claim (and the source's own comment on the zero-match
branch); the claim records the intent, the code the bug. -/
theorem replaceBundle_zero_match_raises :
    replaceBundleExtensionsInHtml "<p>hello</p>".data = Except.error JsErr.typeError
    ∧ bundleRegexMatch "<p>hello</p>".data = none :=
  ⟨rfl, rfl⟩

/-- C3: the project locator equals the specification-side "first qualifying
directory in the ancestor chain" function (so it returns the nearest
qualifying ancestor, including the start directory, and — being a total
function — never loops); every chain element is a prefix (ancestor) of the
start directory; and when no directory qualifies the whole run ends in the
not-found outcome, which prints the diagnostic and exits with status 1. -/
theorem locateProject_nearest :
    (∀ (hasPkg : List String → Bool) (d : List String),
        locateProject hasPkg d = nearestQualifyingAncestor hasPkg d)
    ∧ (∀ d : List String, (ancestors d).all (fun a => a.isPrefixOf d) = true)
    ∧ (∀ (cwd : List String) (w : BuildWorld),
        bundleMain cwd (fun _ => none) w = ProcOutcome.notFoundExit1) := by
  refine ⟨?_, ?_, ?_⟩
  · intro hasPkg d
    exact locateGo_eq_findAncestors hasPkg d.length d
  · intro d
    rw [List.all_eq_true]
    intro a ha
    rw [ List.isPrefixOf_iff_prefix]
    exact ancestorsGo_prefix d.length d a ha
  · intro cwd w
    have hloc : locateProject (fun d => hasPackage none) cwd = none := by
      rw [locateProject, locateGo_eq_findAncestors, List.find?_eq_none]
      intro x _
      simp [hasPackage]
    simp [bundleMain, hloc]

/-- C4: every path returned by the directory walk extends the walk root only
by components that are not in the exclusion list — no returned path has an
excluded name as a component at any depth; and an entry whose name is
excluded is dropped from the child pass entirely, without being descended
into. -/
theorem walkDirSync_no_excluded (exclude : List String) (t : FSNode) :
    (∀ p, p ∈ resPaths (walkDirSync exclude [] t) → ∀ s, s ∈ p → exclude.contains s = false)
    ∧ (∀ (cur : List String) (c : FSNode) (cs : FSList), exclude.contains c.name = true →
        walkFiltered exclude cur (FSList.cons c cs) = walkFiltered exclude cur cs) := by
  constructor
  · intro p hp s hs
    obtain ⟨rel, hrel, hall⟩ := walkDirSync_rel exclude [] t p hp
    rw [hrel, List.nil_append] at hs
    exact hall s hs
  · intro cur c cs hx
    have hxm : c.name ∈ exclude := by simpa using hx
    simp [walkFiltered, hxm]

theorem walkDirSync_no_excluded_witness :
    (["node_modules"] : List String).contains "a.txt" = false :=
  (walkDirSync_no_excluded ["node_modules"] exTreeC4).1 ["a.txt"] (by decide) "a.txt" (by decide)

/-- C5: the promise `buildScript` returns resolves exactly when the
subprocess exit code is 0; every non-zero code makes it reject with exactly
that code — the unconditional `resolve()` after the conditional
`reject(code)` is a no-op because the promise has already settled. -/
theorem buildScript_resolves_iff_zero (code : Int) :
    (closeSettle code = Settle.resolved ↔ code = 0)
    ∧ (code ≠ 0 → closeSettle code = Settle.rejected (JsErr.exitCode code)) := by
  by_cases h : code = 0 <;> simp [closeSettle, trySettle, h]

theorem buildScript_resolves_iff_zero_witness :
    closeSettle 127 = Settle.rejected (JsErr.exitCode 127) :=
  (buildScript_resolves_iff_zero 127).2 (by decide)

/-- C6: an HTML document with the quoted reference `"foo.bundle.js"` is
rewritten with that reference replaced by `"/foo.bundle.js"`: the regex
matches the full quote-free run `foo.bundle.js`, the replacement keeps the
segment of the base filename before the first `.` and appends the normalized
`.bundle.js` suffix behind a leading separator, and the substitution replaces
the first occurrence of the matched string in the document. -/
theorem replaceBundle_foo_reference :
    replaceBundleExtensionsInHtml "<script src=\"foo.bundle.js\"></script>".data
        = Except.ok "<script src=\"/foo.bundle.js\"></script>".data
    ∧ bundleRegexMatch "<script src=\"foo.bundle.js\"></script>".data
        = some ["foo.bundle.js".data]
    ∧ updatedPath "foo.bundle.js".data = "/foo.bundle.js".data :=
  ⟨rfl, rfl, rfl⟩

/-- C7: creating the build output directory is idempotent — when the stat
probe reports an existing directory the promise resolves regardless of what
`mkdir` would do, so a re-run does not fail at this step; when the directory
does not already exist and `mkdir` reports an error the promise rejects with
1, and the whole run then ends in the failure outcome with exit code 1
(process exit status 1). -/
theorem ensureBuildDir_idempotent :
    (∀ mkdirErr : Bool, ensureBuildDir StatOutcome.statDir mkdirErr = Except.ok ())
    ∧ (∀ s : StatOutcome, s ≠ StatOutcome.statDir → ensureBuildDir s true = Except.error 1)
    ∧ bundleMain ["proj"] scenarioPkgAt
        (BuildWorld.mk StatOutcome.statThrew true scenarioTree (fun _ => 0) 0 scenarioHtml)
        = ProcOutcome.errExit1 (JsErr.exitCode 1) := by
  refine ⟨fun _ => rfl, ?_, by decide⟩
  intro s hs
  cases s with
  | statDir => exact absurd rfl hs
  | statNonDir => rfl
  | statThrew => rfl

theorem ensureBuildDir_idempotent_witness :
    ensureBuildDir StatOutcome.statThrew true = Except.error 1 :=
  ensureBuildDir_idempotent.2.1 StatOutcome.statThrew (by decide)

/-- C8: a directory qualifies exactly when its manifest exists and lists
`react-vr` under the `dependencies` key; a manifest with no `dependencies`
key (in particular one declaring the framework only under `devDependencies`)
does not qualify, nor does a missing manifest; and at a non-root directory
that fails the test the search continues with the parent. -/
theorem hasPackage_dependencies_only :
    (∀ m : Option PackageJson, hasPackage m = true ↔
        ∃ pkg deps, m = some pkg ∧ pkg.dependencies = some deps
          ∧ deps.contains "react-vr" = true)
    ∧ (∀ devs : Option (List String), hasPackage (some (PackageJson.mk none devs)) = false)
    ∧ hasPackage none = false
    ∧ (∀ (pkgAt : List String → Option PackageJson) (d : List String), d ≠ [] →
        hasPackage (pkgAt d) = false →
        locateProject (fun a => hasPackage (pkgAt a)) d
          = locateProject (fun a => hasPackage (pkgAt a)) (parentDir d)) := by
  refine ⟨?_, fun devs => rfl, rfl, ?_⟩
  · intro m
    cases m with
    | none => simp [hasPackage]
    | some pkg =>
      obtain ⟨dep, dev⟩ := pkg
      cases dep with
      | none => simp [hasPackage]
      | some deps => simp [hasPackage]
  · intro pkgAt d hne hfalse
    have hz : d.length ≠ 0 := by simpa [List.length_eq_zero] using hne
    obtain ⟨n, hn⟩ : ∃ n, d.length = n + 1 := ⟨d.length - 1, by omega⟩
    have hpl : (parentDir d).length = n := by
      rw [parentDir, List.length_dropLast, hn]
      omega
    have hne2 : parentDir d ≠ d := fun hEq => hne ((dropLast_eq_self_iff d).mp hEq)
    rw [locateProject, locateProject, hn, hpl]
    simp [locateGo, hfalse, hne2]

theorem hasPackage_dependencies_only_witness :
    locateProject (fun a => hasPackage (pkgAtDevC8 a)) ["home", "proj"]
      = locateProject (fun a => hasPackage (pkgAtDevC8 a)) (parentDir ["home", "proj"]) :=
  hasPackage_dependencies_only.2.2.2 pkgAtDevC8 ["home", "proj"] (by decide) (by decide)

/-- C9: the client build target is the first walked path containing the
substring `client.js` anywhere (so `client.json` and `myclient.js` also
qualify, and an earlier `myclient.js` wins over a later `client.js`); when no
walked path contains it the run does not skip the client bundle but ends in
the failure outcome (the `TypeError` from `path.resolve(undefined)` rejects
the chain) and the process exits with status 1. -/
theorem clientJs_selection :
    (∀ (contents : List (List String)) (f : List String), clientJsFind contents = some f →
        hasClientJs f = true
        ∧ ∃ pre post, contents = pre ++ f :: post ∧ ∀ g ∈ pre, hasClientJs g = false)
    ∧ clientJsFind [["proj", "client.json"]] = some ["proj", "client.json"]
    ∧ clientJsFind [["proj", "myclient.js"], ["proj", "client.js"]]
        = some ["proj", "myclient.js"]
    ∧ bundleMain ["proj"] scenarioPkgAt noClientWorld = ProcOutcome.errExit1 JsErr.typeError :=
  ⟨fun contents f h => find?_some_split hasClientJs contents f h, by decide, by decide, by decide⟩

theorem clientJs_selection_witness :
    hasClientJs ["proj", "client.json"] = true :=
  (clientJs_selection.1 [["proj", "client.json"]] ["proj", "client.json"] (by decide)).1

/-- C10: called on a non-directory, the walk returns that path itself as a
single string (not wrapped in a list); called on a directory it always
returns an array of paths. -/
theorem walkDirSync_file_vs_dir :
    (∀ (exclude cur : List String) (nm : String),
        walkDirSync exclude cur (FSNode.file nm) = WalkResult.str cur)
    ∧ (∀ (exclude cur : List String) (nm : String) (children : FSList),
        ∃ ps, walkDirSync exclude cur (FSNode.dir nm children) = WalkResult.arr ps) :=
  ⟨fun _ _ _ => rfl, fun _ _ _ _ => ⟨_, rfl⟩⟩
